import Mathlib

/-!
Verification development for the tomatoslicer interval-algebra library.

Instants are modelled as integers counting microseconds: Python `datetime`
values are totally ordered with one microsecond as the smallest representable
increment, and all slice-internal instants are normalized to UTC, so the
interval algebra of the library is faithfully captured by `Int` arithmetic
(timezone display conversion does not affect any comparison, and in UTC no
daylight-saving transition ever occurs).  Durations (`timedelta`) are likewise
integers of microseconds.  Decimal quantities of the rounding helpers are
modelled as exact rationals.
-/

namespace TomatoSlicer

/-- A `TimeSlice` value: the two UTC-normalized instants `_start` and `_end`
of `tomatoslicer.time.TimeSlice`.  The display timezone and the rounding
configuration fields are omitted: they take part in no comparison and
`__eq__` ignores them.  The `start ≤ end` invariant is deliberately not a
structure field, because the Python setters can leave an object violating
it (they assign before validating). -/
structure TimeSlice where
  start : Int
  «end» : Int
deriving DecidableEq, Repr

/-- The ordering invariant `start ≤ end` of a slice. -/
def TimeSlice.valid (s : TimeSlice) : Prop := s.start ≤ s.«end»

instance (s : TimeSlice) : Decidable s.valid :=
  inferInstanceAs (Decidable (s.start ≤ s.«end»))

/-- Constructor `TimeSlice.__init__` (time.py lines 31-74): requires a start
and either an explicit end or a duration; setting the end goes through the
`end` setter, which raises when the end precedes the start. -/
def TimeSlice.init (start : Int) (endOpt durOpt : Option Int) : Except String TimeSlice :=
  match endOpt, durOpt with
  | some e, none =>
      if start > e then .error "End cannot be set to a time before the start of a TimeSlice"
      else .ok ⟨start, e⟩
  | none, some d =>
      if start > start + d then .error "End cannot be set to a time before the start of a TimeSlice"
      else .ok ⟨start, start + d⟩
  | none, none => .ok ⟨start, start⟩
  | some _, some _ => .error "End and duration cannot both be set"

/-- The `start` setter (time.py lines 171-176).  The field is assigned first
and the invariant is checked afterwards, so the returned state carries the
new value even when the check fails; the second component reports whether a
`ValueError` was raised. -/
def TimeSlice.setStart (s : TimeSlice) (value : Int) : TimeSlice × Except String Unit :=
  ({ s with start := value },
   if value > s.«end» then
     .error "Start cannot be set to a time after the end of a TimeSlice"
   else .ok ())

/-- The `end` setter (time.py lines 182-187), with the same
assign-then-validate shape as the `start` setter. -/
def TimeSlice.setEnd (s : TimeSlice) (value : Int) : TimeSlice × Except String Unit :=
  ({ s with «end» := value },
   if s.start > value then
     .error "End cannot be set to a time before the start of a TimeSlice"
   else .ok ())

/-- `TimeSlice.occludes` (time.py line 200). -/
def TimeSlice.occludes (s o : TimeSlice) : Prop :=
  (s.start ≤ o.start ∧ o.start ≤ s.«end») ∧ (s.start ≤ o.«end» ∧ o.«end» ≤ s.«end»)

/-- `TimeSlice.occluded_by` (time.py line 203). -/
def TimeSlice.occluded_by (s o : TimeSlice) : Prop :=
  (o.start ≤ s.start ∧ s.start ≤ o.«end») ∧ (o.start ≤ s.«end» ∧ s.«end» ≤ o.«end»)

/-- `TimeSlice.overlaps` on another slice (time.py lines 214-220): any of the
four endpoint-containment tests. -/
def TimeSlice.overlaps (s o : TimeSlice) : Prop :=
  (o.start ≤ s.start ∧ s.start ≤ o.«end») ∨
  (o.start ≤ s.«end» ∧ s.«end» ≤ o.«end») ∨
  (s.start ≤ o.start ∧ o.start ≤ s.«end») ∨
  (s.start ≤ o.«end» ∧ o.«end» ≤ s.«end»)

/-- `TimeSlice.overlaps` on a bare instant (time.py lines 207-213).
Modelled from the spec: the helper `localize` imported from
`tomatoslicer.shortcuts` is absent from the sources; per the spec the bare
instant case is "true if it falls within `[start, end]` inclusive", which is
exactly the UTC comparison the code performs once the instant is localized. -/
def TimeSlice.overlapsInstant (s : TimeSlice) (t : Int) : Prop :=
  s.start ≤ t ∧ t ≤ s.«end»

instance (s o : TimeSlice) : Decidable (s.occludes o) :=
  inferInstanceAs (Decidable (_ ∧ _))

instance (s o : TimeSlice) : Decidable (s.occluded_by o) :=
  inferInstanceAs (Decidable (_ ∧ _))

instance (s o : TimeSlice) : Decidable (s.overlaps o) :=
  inferInstanceAs (Decidable (_ ∨ _))

instance (s : TimeSlice) (t : Int) : Decidable (s.overlapsInstant t) :=
  inferInstanceAs (Decidable (_ ∧ _))

/-- `TimeSlice.split` (time.py lines 309-327): raises when the split point is
outside the slice; otherwise builds the left piece `[start, point − 1µs]`
(absent when that constructor raises, i.e. when `point = start`) and the
right piece `[point, end]`. -/
def TimeSlice.split (s : TimeSlice) (split_time : Int) : Except String (Option TimeSlice × TimeSlice) :=
  if ¬ s.overlapsInstant split_time then .error "Split time not in range"
  else
    match TimeSlice.init split_time (some s.«end») none with
    | .error e => .error e
    | .ok right =>
        .ok (match TimeSlice.init s.start (some (split_time - 1)) none with
             | .ok left => some left
             | .error _ => none,
             right)

/-- `TimeSlice.punch_hole` (time.py lines 329-352): interval subtraction by
two `split` calls, each wrapped in a `try/except` that drops the piece when
`split` raises. -/
def TimeSlice.punch_hole (s o : TimeSlice) : List TimeSlice :=
  if s.occluded_by o then []
  else if ¬ s.overlaps o then [s]
  else
    (match s.split o.start with
     | .ok (some left, _) => [left]
     | .ok (none, _) => []
     | .error _ => []) ++
    (match s.split o.«end» with
     | .ok (_, right) => [right]
     | .error _ => [])

/-- `TimeSlice.merge` (time.py lines 354-358).  The constructor call inside
the Python method cannot raise when both inputs satisfy `start ≤ end`
(then `min` of the starts is at most `max` of the ends), so the success
branch builds the spanning slice directly. -/
def TimeSlice.merge (s o : TimeSlice) : Except String TimeSlice :=
  if s.overlaps o then
    .ok ⟨min s.start o.start, max s.«end» o.«end»⟩
  else .error "Cannot merge; Time slices do not overlap"

/-- Loop body of `TimeSlice.iter` (time.py lines 234-247), specialised to a
fixed-length interval `d`: starting from the cursor slice
`[cs, cs + d]`, while `cursor.end − 1µs ≤ e` yield `[cs, cs + d − 1µs]` and
advance the cursor by `d`.  In the UTC model the two daylight-saving
correction branches never fire (`dst()` is always zero).  The `fuel`
argument bounds the number of loop iterations; `TimeSlice.iter` supplies
enough fuel for the loop to run to its exit condition. -/
def iterAux (cs e d : Int) : Nat → List TimeSlice
  | 0 => []
  | fuel + 1 =>
      if cs + d - 1 ≤ e then ⟨cs, cs + d - 1⟩ :: iterAux (cs + d) e d fuel
      else []

/-- `TimeSlice.iter` with a fixed-length interval `d` (in microseconds). -/
def TimeSlice.iter (s : TimeSlice) (d : Int) : List TimeSlice :=
  iterAux s.start s.«end» d (s.«end» - s.start + 1).toNat

/-- `TimeSlice.iter_weeks` (time.py lines 252-253): `iter` with an interval
of `7 * step` days (a `relativedelta` of whole days is a fixed-length
interval). -/
def TimeSlice.iter_weeks (s : TimeSlice) (step : Int) : List TimeSlice :=
  s.iter (step * 7 * 86400000000)

/-- The sort key of `TimeLine.sort` is the tuple `x.range = (start, end)`
compared lexicographically (time.py line 603). -/
def rangeLe (a b : TimeSlice) : Prop :=
  a.start < b.start ∨ (a.start = b.start ∧ a.«end» ≤ b.«end»)

instance : DecidableRel rangeLe := fun a b =>
  inferInstanceAs (Decidable (_ ∨ _))

instance : DecidableRel (fun a b => rangeLe b a) := fun a b =>
  inferInstanceAs (Decidable (rangeLe b a))

instance : IsTotal TimeSlice rangeLe where
  total a b := by
    unfold rangeLe
    rcases lt_trichotomy a.start b.start with h | h | h
    · exact Or.inl (Or.inl h)
    · rcases le_total a.«end» b.«end» with h2 | h2
      · exact Or.inl (Or.inr ⟨h, h2⟩)
      · exact Or.inr (Or.inr ⟨h.symm, h2⟩)
    · exact Or.inr (Or.inl h)

instance : IsTrans TimeSlice rangeLe where
  trans a b c hab hbc := by
    unfold rangeLe at *
    rcases hab with h | ⟨h, h'⟩ <;> rcases hbc with g | ⟨g, g'⟩
    · exact Or.inl (h.trans g)
    · exact Or.inl (g ▸ h)
    · exact Or.inl (h ▸ g)
    · exact Or.inr ⟨h.trans g, h'.trans g'⟩

instance : IsAntisymm TimeSlice rangeLe where
  antisymm a b hab hba := by
    rcases a with ⟨as, ae⟩
    rcases b with ⟨bs, be⟩
    simp only [rangeLe] at hab hba
    simp only [TimeSlice.mk.injEq]
    rcases hab with h | ⟨h, h'⟩ <;> rcases hba with g | ⟨g, g'⟩ <;> omega

instance : IsTotal TimeSlice (fun a b => rangeLe b a) where
  total a b := IsTotal.total (r := rangeLe) b a

instance : IsTrans TimeSlice (fun a b => rangeLe b a) where
  trans _ _ _ hab hbc := IsTrans.trans (r := rangeLe) _ _ _ hbc hab

instance : IsAntisymm TimeSlice (fun a b => rangeLe b a) where
  antisymm a b hab hba := IsAntisymm.antisymm (r := rangeLe) a b hba hab

/-- Python's stable `list.sort(key=lambda x: x.range, reverse=reverse)`.
Python's sort and `List.insertionSort` may order key-equal elements
differently, but two slices with equal `(start, end)` keys are equal values
in this model, so every sorted rearrangement is the same list. -/
def sortList (reverse : Bool) (l : List TimeSlice) : List TimeSlice :=
  if reverse then l.insertionSort (fun a b => rangeLe b a)
  else l.insertionSort rangeLe

/-- A `TimeLine` (time.py lines 521-530): the member slices and the
`_reverse` sort-direction flag. -/
structure TimeLine where
  time_slices : List TimeSlice
  reverse : Bool
deriving DecidableEq, Repr

/-- `TimeLine.sort` (time.py lines 599-603): an argument of `some r`
replaces the direction flag; `none` (Python `None`) keeps it. -/
def TimeLine.sort (tl : TimeLine) (rev : Option Bool) : TimeLine :=
  let r := rev.getD tl.reverse
  ⟨sortList r tl.time_slices, r⟩

/-- `TimeLine.__init__` (time.py lines 523-530): store the given slices and
direction flag, then sort. -/
def TimeLine.init (slices : List TimeSlice) (reverse : Bool) : TimeLine :=
  TimeLine.sort ⟨slices, reverse⟩ none

/-- `TimeLine.append` (time.py lines 596-597): push the slice at the end,
with no re-sort. -/
def TimeLine.append (tl : TimeLine) (s : TimeSlice) : TimeLine :=
  ⟨tl.time_slices ++ [s], tl.reverse⟩

/-- The while-loop of `TimeLine.merge_overlap` (time.py lines 613-625),
consuming the slices in ascending order (the Python code pops them off the
end of a descending-sorted list): try to merge the accumulator with the next
slice; on a raised `ValueError` emit the accumulator and restart from the
next slice. -/
def mergeLoop : TimeSlice → List TimeSlice → List TimeSlice
  | current, [] => [current]
  | current, next :: rest =>
      match current.merge next with
      | .ok merged => mergeLoop merged rest
      | .error _ => current :: mergeLoop next rest

/-- `TimeLine.merge_overlap` (time.py lines 605-629): nothing happens on an
empty timeline; otherwise the slices are consumed in ascending order,
overlapping runs are merged, and the result is re-sorted in the timeline's
configured direction (the Python code temporarily flips `_reverse` to `True`
and restores it with the final `sort(reverse=reverse)`). -/
def TimeLine.merge_overlap (tl : TimeLine) : TimeLine :=
  match sortList false tl.time_slices with
  | [] => tl
  | current :: rest => ⟨sortList tl.reverse (mergeLoop current rest), tl.reverse⟩

/-- `TimeLine.flatten` (time.py lines 631-633) with the default
`reverse=None`: sort, then merge overlaps. -/
def TimeLine.flatten (tl : TimeLine) : TimeLine :=
  (tl.sort none).merge_overlap

/-- Sort order demanded of a timeline's slices by its direction flag:
ascending `(start, end)` order unless `reverse` is set, descending then. -/
def dirRel (reverse : Bool) : TimeSlice → TimeSlice → Prop :=
  fun a b => if reverse then rangeLe b a else rangeLe a b

/-- Python `round()` applied to a `Decimal`: round to the nearest integer
with ties going to the even neighbour (the default `ROUND_HALF_EVEN`
context rounding of the `decimal` module). -/
def roundHalfEven (q : ℚ) : ℤ :=
  if q - ⌊q⌋ < 1/2 then ⌊q⌋
  else if 1/2 < q - ⌊q⌋ then ⌊q⌋ + 1
  else if Even ⌊q⌋ then ⌊q⌋ else ⌊q⌋ + 1

/-- Python `round(x, n)` on a `Decimal`: half-even rounding at the `n`-th
decimal place. -/
def roundToPlaces (q : ℚ) (n : ℕ) : ℚ :=
  (roundHalfEven (q * 10 ^ n) : ℚ) / 10 ^ n

/-- `shortcuts.duration_to_unit_hours` (shortcuts.py lines 101-110), with
`Decimal` arithmetic modelled as exact rationals and the duration as a
number of seconds. -/
def duration_to_unit_hours (duration : Option ℚ) (decimal_places : Option ℕ) : ℚ :=
  match duration with
  | none => 0
  | some dur =>
      match decimal_places with
      | none => dur / 3600
      | some n => roundToPlaces (dur / 3600) n

/-- Truncation toward zero, as performed by `Decimal` division when taking a
remainder. -/
def ratTrunc (q : ℚ) : ℤ := if 0 ≤ q then ⌊q⌋ else ⌈q⌉

/-- The `%` operator of Python `Decimal`: the remainder after truncating
division, carrying the sign of the dividend. -/
def decimalMod (x y : ℚ) : ℚ := x - y * ratTrunc (x / y)

/-- Modelled from the spec: the module `tomatoslicer.constants` is absent
from the sources; the spec names the three rounding policies floor, ceiling
and standard, so the mode constants are modelled as those three distinct
strings. -/
def ROUNDING_MODE_FLOOR : String := "floor"

/-- Modelled from the spec: see `ROUNDING_MODE_FLOOR`. -/
def ROUNDING_MODE_CEILING : String := "ceiling"

/-- Modelled from the spec: see `ROUNDING_MODE_FLOOR`. -/
def ROUNDING_MODE_STANDARD : String := "standard"

/-- `shortcuts.duration_to_rounded_unit_hours` (shortcuts.py lines 113-140).
A missing duration yields zero before any mode validation; with a step and a
mode both present, floor subtracts the nonzero remainder, ceiling adds the
step's complement of a nonzero remainder, standard rounds
`unit_hours * (1/step)` with Python's `round` (half-even) and divides back,
and every other mode raises `ValueError`. -/
def duration_to_rounded_unit_hours (duration : Option ℚ) (decimal_places : Option ℕ)
    (rounding_step : Option ℚ) (rounding_mode : Option String) : Except String ℚ :=
  match duration with
  | none => .ok 0
  | some dur =>
      let unit_hours := duration_to_unit_hours (some dur) decimal_places
      match rounding_step, rounding_mode with
      | none, _ => .ok unit_hours
      | some _, none => .ok unit_hours
      | some step, some mode =>
          if mode = ROUNDING_MODE_FLOOR then
            let remainder := decimalMod unit_hours step
            if remainder = 0 then .ok unit_hours else .ok (unit_hours - remainder)
          else if mode = ROUNDING_MODE_CEILING then
            let remainder := decimalMod unit_hours step
            if remainder = 0 then .ok unit_hours else .ok (unit_hours + (step - remainder))
          else if mode = ROUNDING_MODE_STANDARD then
            let fraction := 1 / step
            .ok ((roundHalfEven (unit_hours * fraction) : ℚ) / fraction)
          else .error ("Invalid rounding mode: " ++ mode)

/-- Conventional round-half-away-from-zero to the nearest integer, the
rounding the spec asserts for the standard mode; this definition follows the
spec's words and exists to be compared against the source's behaviour. -/
def roundHalfAway (q : ℚ) : ℤ :=
  if q - ⌊q⌋ < 1/2 then ⌊q⌋
  else if 1/2 < q - ⌊q⌋ then ⌊q⌋ + 1
  else if 0 ≤ q then ⌊q⌋ + 1 else ⌊q⌋

/-- The spec's standard-mode rounding: the nearest multiple of
`rounding_step`, with conventional (half-away-from-zero, not banker's)
rounding at the midpoint.  Follows the spec's words, for comparison with
`duration_to_rounded_unit_hours`. -/
def specStandardRounding (unit_hours step : ℚ) : ℚ :=
  step * (roundHalfAway (unit_hours / step) : ℚ)

/-- Modelled from the spec: the civil-calendar provider (`datetime.date` in
the source) is an external collaborator; this is the standard count of days
from 1970-01-01 of a proleptic Gregorian date, using floor division (Lean's
`/` on `Int` with a positive divisor). -/
def daysFromCivil (y m d : ℤ) : ℤ :=
  (if m ≤ 2 then y - 1 else y) / 400 * 146097
  + ((if m ≤ 2 then y - 1 else y) % 400) * 365
  + ((if m ≤ 2 then y - 1 else y) % 400) / 4
  - ((if m ≤ 2 then y - 1 else y) % 400) / 100
  + (153 * ((m + 9) % 12) + 2) / 5
  + d - 1
  - 719468

/-- Modelled from the spec: `iso_weekday(date) -> integer in [1,7]` of the
external calendar provider (Monday = 1 … Sunday = 7); 1970-01-01 was a
Thursday (= 4). -/
def isoweekday (y m d : ℤ) : ℤ :=
  (daysFromCivil y m d + 3) % 7 + 1

/-- `NthWeekdayCalculator.__init__`'s day-of-month computation (time.py
lines 376-398): `offset = iso_weekday − isoweekday(1st of month)`;
`day = 7*(nth−1) + 1 + offset`, plus 7 when the offset is negative. -/
def nthWeekdayDay (year month nth iso_weekday : ℤ) : ℤ :=
  if 0 ≤ iso_weekday - isoweekday year month 1 then
    (7 * (nth - 1) + 1) + (iso_weekday - isoweekday year month 1)
  else
    (7 * (nth - 1) + 1) + (iso_weekday - isoweekday year month 1) + 7

/-! Helper lemmas shared by the claim theorems. -/

lemma split_not_in_range {s : TimeSlice} {p : Int} (hp : ¬ (s.start ≤ p ∧ p ≤ s.«end»)) :
    s.split p = .error "Split time not in range" := by
  rw [TimeSlice.split, if_pos]
  exact hp

lemma split_in_range {s : TimeSlice} {p : Int} (h1 : s.start ≤ p) (h2 : p ≤ s.«end») :
    s.split p = .ok (if p = s.start then none else some ⟨s.start, p - 1⟩, ⟨p, s.«end»⟩) := by
  rw [TimeSlice.split, if_neg (by exact fun h => h ⟨h1, h2⟩)]
  rw [show TimeSlice.init p (some s.«end») none = .ok ⟨p, s.«end»⟩ from by
    rw [TimeSlice.init, if_neg (by omega)]]
  rcases eq_or_lt_of_le h1 with he | hlt
  · rw [if_pos he.symm]
    rw [show TimeSlice.init s.start (some (p - 1)) none =
        .error "End cannot be set to a time before the start of a TimeSlice" from by
      rw [TimeSlice.init, if_pos (by omega)]]
  · rw [if_neg (by omega)]
    rw [show TimeSlice.init s.start (some (p - 1)) none = .ok ⟨s.start, p - 1⟩ from by
      rw [TimeSlice.init, if_neg (by omega)]]

lemma overlaps_iff_shared {a b : TimeSlice} (ha : a.valid) (hb : b.valid) :
    a.overlaps b ↔ ∃ t : Int, (a.start ≤ t ∧ t ≤ a.«end») ∧ (b.start ≤ t ∧ t ≤ b.«end») := by
  unfold TimeSlice.valid at ha hb
  unfold TimeSlice.overlaps
  constructor
  · intro h
    exact ⟨max a.start b.start, by omega⟩
  · rintro ⟨t, ht⟩
    omega

/-- Claim C1: the claim asserts that a failed setter assignment leaves the
slice satisfying `start ≤ end`.  The code assigns the field before
validating, so on the slice `[0µs, 10µs]` the mutation `start := 20µs`
raises the expected error yet leaves behind the slice `[20µs, 10µs]`, which
violates the invariant. -/
theorem claim_C1_failed_set_leaves_invalid :
    (TimeSlice.mk 0 10).valid
    ∧ TimeSlice.setStart ⟨0, 10⟩ 20 =
        (⟨20, 10⟩, .error "Start cannot be set to a time after the end of a TimeSlice")
    ∧ ¬ (TimeSlice.setStart ⟨0, 10⟩ 20).1.valid := by
  refine ⟨by decide, rfl, by decide⟩

/-- Claim C7: `TimeSlice` construction rejects supplying both an end and a
duration, defaults to a zero-length slice when neither is supplied, always
yields a slice satisfying `start ≤ end` on success, and fails exactly when
the resulting end would precede the start. -/
theorem claim_C7_init_spec (a : Int) :
    (∀ e d : Int, TimeSlice.init a (some e) (some d) = .error "End and duration cannot both be set")
    ∧ TimeSlice.init a none none = .ok ⟨a, a⟩
    ∧ (∀ (endOpt durOpt : Option Int) (t : TimeSlice),
        TimeSlice.init a endOpt durOpt = .ok t → t.valid ∧ t.start = a)
    ∧ (∀ e : Int, e < a →
        TimeSlice.init a (some e) none = .error "End cannot be set to a time before the start of a TimeSlice")
    ∧ (∀ e : Int, a ≤ e → TimeSlice.init a (some e) none = .ok ⟨a, e⟩)
    ∧ (∀ d : Int, d < 0 →
        TimeSlice.init a none (some d) = .error "End cannot be set to a time before the start of a TimeSlice")
    ∧ (∀ d : Int, 0 ≤ d → TimeSlice.init a none (some d) = .ok ⟨a, a + d⟩) := by
  refine ⟨fun e d => rfl, rfl, ?_, ?_, ?_, ?_, ?_⟩
  · intro endOpt durOpt t h
    rcases endOpt with _ | e <;> rcases durOpt with _ | d <;>
      simp only [TimeSlice.init] at h
    · cases h
      exact ⟨le_refl _, rfl⟩
    · split at h
      · cases h
      · cases h
        exact ⟨by simp only [TimeSlice.valid]; omega, rfl⟩
    · split at h
      · cases h
      · cases h
        exact ⟨by simp only [TimeSlice.valid]; omega, rfl⟩
    · cases h
  · intro e he
    rw [TimeSlice.init, if_pos (by omega)]
  · intro e he
    rw [TimeSlice.init, if_neg (by omega)]
  · intro d hd
    rw [TimeSlice.init, if_pos (by omega)]
  · intro d hd
    rw [TimeSlice.init, if_neg (by omega)]

/-- Witness for claim C7 at concrete inputs. -/
theorem claim_C7_init_spec_witness :
    TimeSlice.init 0 (some 1) (some 1) = .error "End and duration cannot both be set"
    ∧ TimeSlice.init 0 none none = .ok ⟨0, 0⟩
    ∧ TimeSlice.init 0 (some (-1)) none = .error "End cannot be set to a time before the start of a TimeSlice" :=
  ⟨(claim_C7_init_spec 0).1 1 1, (claim_C7_init_spec 0).2.1,
    (claim_C7_init_spec 0).2.2.2.1 (-1) (by decide)⟩

/-- Claim C4: `split` fails with an invalid-argument error unless
`start ≤ p ≤ end`; on success it produces `[start, p − ε]` and `[p, end]`
with `ε` one microsecond, and the left piece is `none` exactly when
`p = start`. -/
theorem claim_C4_split_spec (s : TimeSlice) (p : Int) :
    (¬ (s.start ≤ p ∧ p ≤ s.«end») → s.split p = .error "Split time not in range")
    ∧ (s.start ≤ p → p ≤ s.«end» →
        s.split p = .ok (if p = s.start then none else some ⟨s.start, p - 1⟩, ⟨p, s.«end»⟩)) :=
  ⟨fun hp => split_not_in_range hp, fun h1 h2 => split_in_range h1 h2⟩

/-- Witness for claim C4 at concrete inputs. -/
theorem claim_C4_split_spec_witness :
    TimeSlice.split ⟨0, 10⟩ 4 = .ok (some ⟨0, 3⟩, ⟨4, 10⟩)
    ∧ TimeSlice.split ⟨0, 10⟩ 0 = .ok (none, ⟨0, 10⟩)
    ∧ TimeSlice.split ⟨0, 10⟩ 11 = .error "Split time not in range" :=
  ⟨(claim_C4_split_spec ⟨0, 10⟩ 4).2 (by decide) (by decide),
    (claim_C4_split_spec ⟨0, 10⟩ 0).2 (by decide) (by decide),
    (claim_C4_split_spec ⟨0, 10⟩ 11).1 (by decide)⟩

/-- Claim C5: `merge` succeeds exactly when the two closed intervals share
an instant (so touching endpoints merge), returning the slice
`[min(start, start'), max(end, end')]`, and fails with an invalid-argument
error otherwise. -/
theorem claim_C5_merge_spec (a b : TimeSlice) (ha : a.valid) (hb : b.valid) :
    (a.merge b = .ok ⟨min a.start b.start, max a.«end» b.«end»⟩ ↔
      ∃ t : Int, (a.start ≤ t ∧ t ≤ a.«end») ∧ (b.start ≤ t ∧ t ≤ b.«end»))
    ∧ ((¬ ∃ t : Int, (a.start ≤ t ∧ t ≤ a.«end») ∧ (b.start ≤ t ∧ t ≤ b.«end»)) →
        a.merge b = .error "Cannot merge; Time slices do not overlap")
    ∧ (a.«end» = b.start → a.merge b = .ok ⟨min a.start b.start, max a.«end» b.«end»⟩) := by
  have hiff := overlaps_iff_shared ha hb
  refine ⟨?_, ?_, ?_⟩
  · constructor
    · intro h
      rw [← hiff]
      by_contra hno
      rw [TimeSlice.merge, if_neg hno] at h
      cases h
    · intro h
      rw [TimeSlice.merge, if_pos (hiff.mpr h)]
  · intro h
    rw [TimeSlice.merge, if_neg (fun hov => h (hiff.mp hov))]
  · intro h
    rw [TimeSlice.merge, if_pos]
    rw [hiff]
    refine ⟨a.«end», ?_⟩
    unfold TimeSlice.valid at ha hb
    omega

/-- Witness for claim C5: merging the touching slices `[0, 5]` and `[5, 9]`
succeeds and spans both. -/
theorem claim_C5_merge_spec_witness :
    TimeSlice.merge ⟨0, 5⟩ ⟨5, 9⟩ = .ok ⟨min 0 5, max 5 9⟩ :=
  (claim_C5_merge_spec ⟨0, 5⟩ ⟨5, 9⟩ (by decide) (by decide)).2.2 rfl

/-- Claim C3: `punch_hole` is interval subtraction.  A slice contained in
the hole vanishes; a slice disjoint from the hole survives as a copy of
itself; otherwise the surviving left remainder `[start, hole.start − 1µs]`
(present when the hole starts strictly inside) and right remainder
`[hole.end, end]` (present when the hole ends inside) are returned in
left-to-right order and at least one survives; on
`[9:00, 17:00] \ [12:00, 13:00]` exactly the pieces
`[9:00, 11:59:59.999999]` and `[13:00, 17:00]` result. -/
theorem claim_C3_punch_hole_spec (s h : TimeSlice) (hs : s.valid) (hh : h.valid) :
    (s.occluded_by h → s.punch_hole h = [])
    ∧ (¬ s.overlaps h → s.punch_hole h = [s])
    ∧ (s.overlaps h → ¬ s.occluded_by h →
        s.punch_hole h =
          (if s.start < h.start then [⟨s.start, h.start - 1⟩] else [])
          ++ (if h.«end» ≤ s.«end» then [⟨h.«end», s.«end»⟩] else [])
        ∧ s.punch_hole h ≠ [])
    ∧ TimeSlice.punch_hole ⟨32400000000, 61200000000⟩ ⟨43200000000, 46800000000⟩
        = [⟨32400000000, 43199999999⟩, ⟨46800000000, 61200000000⟩] := by
  unfold TimeSlice.valid at hs hh
  refine ⟨?_, ?_, ?_, by decide⟩
  · intro hocc
    rw [TimeSlice.punch_hole, if_pos hocc]
  · intro hno
    have hnocc : ¬ s.occluded_by h := by
      unfold TimeSlice.occluded_by
      unfold TimeSlice.overlaps at hno
      omega
    rw [TimeSlice.punch_hole, if_neg hnocc, if_pos hno]
  · intro hov hnocc
    have hb : h.start ≤ s.«end» ∧ s.start ≤ h.«end» := by
      unfold TimeSlice.overlaps at hov
      omega
    have heq : s.punch_hole h =
        (if s.start < h.start then [⟨s.start, h.start - 1⟩] else [])
        ++ (if h.«end» ≤ s.«end» then [⟨h.«end», s.«end»⟩] else []) := by
      rw [TimeSlice.punch_hole, if_neg hnocc, if_neg (by exact fun hc => hc hov)]
      congr 1
      · rcases lt_or_le s.start h.start with hc | hc
        · rw [if_pos hc, split_in_range (le_of_lt hc) hb.1, if_neg (by omega)]
        · rw [if_neg (by omega)]
          rcases eq_or_lt_of_le hc with he | hlt
          · rw [split_in_range (le_of_eq he.symm) hb.1, if_pos he]
          · rw [split_not_in_range (by omega)]
      · rcases le_or_lt h.«end» s.«end» with hc | hc
        · rw [if_pos hc, split_in_range hb.2 hc]
        · rw [if_neg (by omega), split_not_in_range (by omega)]
    refine ⟨heq, ?_⟩
    rw [heq]
    have hone : s.start < h.start ∨ h.«end» ≤ s.«end» := by
      unfold TimeSlice.occluded_by at hnocc
      omega
    rcases lt_or_le s.start h.start with hc | hc
    · rw [if_pos hc]
      simp
    · rw [if_neg (by omega), if_pos (by omega)]
      simp

/-- Witness for claim C3 at the spec's scenario input. -/
theorem claim_C3_punch_hole_spec_witness :
    TimeSlice.punch_hole ⟨32400000000, 61200000000⟩ ⟨43200000000, 46800000000⟩
      = [⟨32400000000, 43199999999⟩, ⟨46800000000, 61200000000⟩] :=
  (claim_C3_punch_hole_spec ⟨32400000000, 61200000000⟩ ⟨43200000000, 46800000000⟩
    (by decide) (by decide)).2.2.2

/-- Days are numbered linearly: moving the day-of-month by `k` moves the
epoch-day count by `k`. -/
lemma daysFromCivil_linear (y m d : ℤ) :
    daysFromCivil y m d = daysFromCivil y m 1 + (d - 1) := by
  unfold daysFromCivil
  ring

/-- Claim C9: the computed day-of-month really is the `nth` occurrence of
the requested ISO weekday: it carries that weekday and lies in the `nth`
week-block `[7(nth−1)+1, 7nth]`; the 3rd Wednesday of March 2024 is day
20. -/
theorem claim_C9_nth_weekday_spec (y m nth wd : ℤ) (h1 : 1 ≤ wd) (h7 : wd ≤ 7) :
    isoweekday y m (nthWeekdayDay y m nth wd) = wd
    ∧ 7 * (nth - 1) + 1 ≤ nthWeekdayDay y m nth wd
    ∧ nthWeekdayDay y m nth wd ≤ 7 * nth
    ∧ nthWeekdayDay 2024 3 3 3 = 20 := by
  have hcon : nthWeekdayDay 2024 3 3 3 = 20 := by decide
  have main : isoweekday y m (nthWeekdayDay y m nth wd) = wd
      ∧ 7 * (nth - 1) + 1 ≤ nthWeekdayDay y m nth wd
      ∧ nthWeekdayDay y m nth wd ≤ 7 * nth := by
    unfold nthWeekdayDay isoweekday
    split
    · rw [daysFromCivil_linear y m
        (7 * (nth - 1) + 1 + (wd - ((daysFromCivil y m 1 + 3) % 7 + 1)))]
      omega
    · rw [daysFromCivil_linear y m
        (7 * (nth - 1) + 1 + (wd - ((daysFromCivil y m 1 + 3) % 7 + 1)) + 7)]
      omega
  exact ⟨main.1, main.2.1, main.2.2, hcon⟩

/-- Witness for claim C9 at the spec's scenario input. -/
theorem claim_C9_nth_weekday_spec_witness :
    isoweekday 2024 3 (nthWeekdayDay 2024 3 3 3) = 3 :=
  (claim_C9_nth_weekday_spec 2024 3 3 3 (by decide) (by decide)).1

/-- Claim C10: constructing a `TimeLine` sorts the given slices immediately:
the stored list is a permutation of the input ordered by the `(start, end)`
tuple, ascending unless the `reverse` flag is set; `append` merely pushes a
slice at the end without re-sorting. -/
theorem claim_C10_init_sorts (slices : List TimeSlice) (rev : Bool) (s : TimeSlice)
    (tl : TimeLine) :
    (TimeLine.init slices rev).time_slices.Pairwise (dirRel rev)
    ∧ (TimeLine.init slices rev).time_slices.Perm slices
    ∧ (TimeLine.init slices rev).reverse = rev
    ∧ (tl.append s).time_slices = tl.time_slices ++ [s] := by
  refine ⟨?_, ?_, rfl, rfl⟩
  · unfold TimeLine.init TimeLine.sort sortList dirRel
    cases rev
    · simpa using List.sorted_insertionSort rangeLe slices
    · simpa using List.sorted_insertionSort (fun a b => rangeLe b a) slices
  · unfold TimeLine.init TimeLine.sort sortList
    cases rev
    · simpa using List.perm_insertionSort rangeLe slices
    · simpa using List.perm_insertionSort (fun a b => rangeLe b a) slices

/-- Closed form of the `iter` loop for a positive fixed-length interval:
with sufficient fuel, the loop starting its cursor at `cs` yields the
`((e − cs + 1) / d).toNat` slices `[cs + k·d, cs + (k+1)·d − 1]`. -/
lemma iterAux_eq {d : Int} (hd : 0 < d) (e : Int) :
    ∀ (fuel : Nat) (cs : Int), ((e - cs + 1) / d).toNat ≤ fuel →
      iterAux cs e d fuel =
        (List.range ((e - cs + 1) / d).toNat).map
          (fun k : ℕ => ⟨cs + k * d, cs + (k + 1) * d - 1⟩) := by
  intro fuel
  induction fuel with
  | zero =>
      intro cs hfuel
      rw [Nat.le_zero.mp hfuel]
      rfl
  | succ fuel ih =>
      intro cs hfuel
      by_cases hc : cs + d - 1 ≤ e
      · have hone : 1 ≤ (e - cs + 1) / d := by
          rw [Int.le_ediv_iff_mul_le hd]
          omega
        have hstep : (e - (cs + d) + 1) / d = (e - cs + 1) / d - 1 := by
          rw [show e - (cs + d) + 1 = (e - cs + 1) + (-1) * d from by ring,
            Int.add_mul_ediv_right _ _ (ne_of_gt hd)]
          ring
        have hn : ((e - cs + 1) / d).toNat = ((e - (cs + d) + 1) / d).toNat + 1 := by
          omega
        rw [iterAux, if_pos hc, ih (cs + d) (by omega), hn,
          List.range_succ_eq_map, List.map_cons, List.map_map]
        refine congrArg₂ List.cons ?_ ?_
        · simp only [TimeSlice.mk.injEq]
          push_cast
          constructor <;> ring
        · refine congrArg₂ List.map ?_ rfl
          funext k
          simp only [Function.comp_apply, TimeSlice.mk.injEq]
          push_cast
          constructor <;> ring
      · have hzero : (e - cs + 1) / d ≤ 0 := by
          rcases le_or_lt 0 (e - cs + 1) with hnn | hneg
          · exact le_of_eq (Int.ediv_eq_zero_of_lt hnn (by omega))
          · exact le_of_lt (Int.ediv_neg' hneg hd)
        rw [iterAux, if_neg hc, show ((e - cs + 1) / d).toNat = 0 from by omega]
        rfl

/-- Claim C6 (amended): for a positive fixed-length interval `d`, `iter`
yields exactly `⌊(end − start + 1) / d⌋` sub-slices `[start + k·d,
start + (k+1)·d − 1µs]`: they are consecutive (each starts one microsecond
after the previous ends), lie inside `[start, end]` and each spans `d`; a
trailing remainder shorter than `d` is dropped, not truncated, so on
`[Jan 1 00:00, Jan 31 23:59:59.999999]` the call `iter_weeks(1)` yields 4
sub-slices, the last ending Jan 28 23:59:59.999999. -/
theorem claim_C6_iter_spec (s : TimeSlice) (d : Int) (hd : 0 < d) :
    s.iter d =
      (List.range ((s.«end» - s.start + 1) / d).toNat).map
        (fun k : ℕ => ⟨s.start + k * d, s.start + (k + 1) * d - 1⟩)
    ∧ (∀ t ∈ s.iter d, s.start ≤ t.start ∧ t.«end» ≤ s.«end» ∧ t.«end» - t.start = d - 1)
    ∧ (s.iter d).Chain' (fun a b => b.start = a.«end» + 1)
    ∧ TimeSlice.iter_weeks ⟨0, 2678399999999⟩ 1 =
        [⟨0, 604799999999⟩, ⟨604800000000, 1209599999999⟩,
         ⟨1209600000000, 1814399999999⟩, ⟨1814400000000, 2419199999999⟩] := by
  have hchar : s.iter d =
      (List.range ((s.«end» - s.start + 1) / d).toNat).map
        (fun k : ℕ => ⟨s.start + k * d, s.start + (k + 1) * d - 1⟩) := by
    refine iterAux_eq hd s.«end» _ s.start ?_
    rcases le_or_lt 0 (s.«end» - s.start + 1) with hnn | hneg
    · have := Int.ediv_le_self d hnn
      omega
    · have := Int.ediv_neg' hneg hd
      omega
  refine ⟨hchar, ?_, ?_, by decide⟩
  · intro t ht
    rw [hchar] at ht
    simp only [List.mem_map, List.mem_range] at ht
    obtain ⟨k, hk, rfl⟩ := ht
    have hk' : (k : ℤ) + 1 ≤ (s.«end» - s.start + 1) / d := by omega
    rw [Int.le_ediv_iff_mul_le hd] at hk'
    have hkd : 0 ≤ (k : ℤ) * d := mul_nonneg (Int.natCast_nonneg k) (le_of_lt hd)
    have hexp : ((k : ℤ) + 1) * d = (k : ℤ) * d + d := by ring
    refine ⟨by dsimp only; omega, by dsimp only; omega, by dsimp only; ring⟩
  · rw [hchar, List.chain'_map]
    rcases Nat.eq_zero_or_pos ((s.«end» - s.start + 1) / d).toNat with hz | hpos
    · rw [hz]
      exact List.chain'_nil
    · obtain ⟨n, hn⟩ := Nat.exists_eq_succ_of_ne_zero (Nat.pos_iff_ne_zero.mp hpos)
      rw [hn, List.chain'_range_succ]
      intro m hm
      dsimp only
      push_cast
      ring

/-- Witness for claim C6 at the spec's scenario interval (one week, in
microseconds). -/
theorem claim_C6_iter_spec_witness :
    TimeSlice.iter_weeks ⟨0, 2678399999999⟩ 1 =
      [⟨0, 604799999999⟩, ⟨604800000000, 1209599999999⟩,
       ⟨1209600000000, 1814399999999⟩, ⟨1814400000000, 2419199999999⟩] :=
  (claim_C6_iter_spec ⟨0, 2678399999999⟩ 604800000000 (by decide)).2.2.2

/-- Counterexample to claim C6 as stated: on
`A = [Jan 1 00:00, Jan 31 23:59:59.999999]` (microseconds from Jan 1),
`iter_weeks(1)` yields 4 sub-slices, not the claimed `ceil(31/7) = 5`, and
no yielded sub-slice is truncated to the slice's end — the final partial
week is dropped entirely. -/
theorem claim_C6_counterexample :
    (TimeSlice.iter_weeks ⟨0, 2678399999999⟩ 1).length = 4
    ∧ (TimeSlice.iter_weeks ⟨0, 2678399999999⟩ 1).length ≠ 5
    ∧ ∀ t ∈ TimeSlice.iter_weeks ⟨0, 2678399999999⟩ 1, t.«end» ≠ 2678399999999 := by
  decide

/-- Claim C8 (amended): with step or mode absent the unit-hours value is
returned unrounded; floor mode truncates down to a multiple of the step
(subtracting the remainder), ceiling mode rounds a nonzero remainder up to
the next multiple, standard mode rounds to the nearest multiple of the step
using Python's `Decimal` rounding — which resolves midpoints half-to-even
(banker's rounding), not half-away — and any other mode fails with an
invalid-argument error. -/
theorem claim_C8_rounding_spec (dur : ℚ) (places : Option ℕ) (step : ℚ)
    (hstep : 0 < step) (mode : String) :
    (duration_to_rounded_unit_hours (some dur) places none (some mode)
        = .ok (duration_to_unit_hours (some dur) places))
    ∧ (duration_to_rounded_unit_hours (some dur) places (some step) none
        = .ok (duration_to_unit_hours (some dur) places))
    ∧ (duration_to_rounded_unit_hours (some dur) places (some step) (some ROUNDING_MODE_FLOOR)
        = .ok (duration_to_unit_hours (some dur) places
            - decimalMod (duration_to_unit_hours (some dur) places) step))
    ∧ (duration_to_rounded_unit_hours (some dur) places (some step) (some ROUNDING_MODE_FLOOR)
        = .ok (step * ratTrunc (duration_to_unit_hours (some dur) places / step)))
    ∧ (decimalMod (duration_to_unit_hours (some dur) places) step = 0 →
        duration_to_rounded_unit_hours (some dur) places (some step) (some ROUNDING_MODE_CEILING)
          = .ok (duration_to_unit_hours (some dur) places))
    ∧ (decimalMod (duration_to_unit_hours (some dur) places) step ≠ 0 →
        duration_to_rounded_unit_hours (some dur) places (some step) (some ROUNDING_MODE_CEILING)
          = .ok (step * ratTrunc (duration_to_unit_hours (some dur) places / step) + step))
    ∧ (duration_to_rounded_unit_hours (some dur) places (some step) (some ROUNDING_MODE_STANDARD)
        = .ok (step * roundHalfEven (duration_to_unit_hours (some dur) places / step)))
    ∧ (mode ≠ ROUNDING_MODE_FLOOR → mode ≠ ROUNDING_MODE_CEILING →
        mode ≠ ROUNDING_MODE_STANDARD →
        duration_to_rounded_unit_hours (some dur) places (some step) (some mode)
          = .error ("Invalid rounding mode: " ++ mode)) := by
  have hstep' : step ≠ 0 := ne_of_gt hstep
  have hmod : ∀ u : ℚ, u - decimalMod u step = step * ratTrunc (u / step) := by
    intro u
    unfold decimalMod
    ring
  refine ⟨rfl, rfl, ?_, ?_, ?_, ?_, ?_, ?_⟩
  · simp only [duration_to_rounded_unit_hours, ROUNDING_MODE_FLOOR, if_pos]
    split
    · rename_i hz
      rw [hz, sub_zero]
    · rfl
  · simp only [duration_to_rounded_unit_hours, ROUNDING_MODE_FLOOR, if_pos]
    split
    · rename_i hz
      rw [← hmod (duration_to_unit_hours (some dur) places), hz, sub_zero]
    · rw [← hmod (duration_to_unit_hours (some dur) places)]
  · intro hz
    simp only [duration_to_rounded_unit_hours, ROUNDING_MODE_FLOOR, ROUNDING_MODE_CEILING,
      ROUNDING_MODE_STANDARD, String.reduceEq, if_true, if_false]
    rw [if_pos hz]
  · intro hz
    simp only [duration_to_rounded_unit_hours, ROUNDING_MODE_FLOOR, ROUNDING_MODE_CEILING,
      ROUNDING_MODE_STANDARD, String.reduceEq, if_true, if_false]
    rw [if_neg hz]
    have : duration_to_unit_hours (some dur) places
        + (step - decimalMod (duration_to_unit_hours (some dur) places) step)
        = step * ratTrunc (duration_to_unit_hours (some dur) places / step) + step := by
      rw [show duration_to_unit_hours (some dur) places
          + (step - decimalMod (duration_to_unit_hours (some dur) places) step)
          = (duration_to_unit_hours (some dur) places
             - decimalMod (duration_to_unit_hours (some dur) places) step) + step from by ring,
        hmod]
    rw [this]
  · simp only [duration_to_rounded_unit_hours, ROUNDING_MODE_FLOOR, ROUNDING_MODE_CEILING,
      ROUNDING_MODE_STANDARD, String.reduceEq, if_true, if_false]
    rw [show duration_to_unit_hours (some dur) places * (1 / step)
        = duration_to_unit_hours (some dur) places / step from by ring]
    rw [one_div, div_inv_eq_mul, mul_comm]
  · intro h1 h2 h3
    simp only [duration_to_rounded_unit_hours]
    rw [if_neg h1, if_neg h2, if_neg h3]

/-- Witness for claim C8: an unknown mode string fails with the invalid
rounding mode error (at duration 3600 s, step 1). -/
theorem claim_C8_rounding_spec_witness :
    duration_to_rounded_unit_hours (some 3600) none (some 1) (some "bogus")
      = .error ("Invalid rounding mode: " ++ "bogus") :=
  (claim_C8_rounding_spec 3600 none 1 (by norm_num) "bogus").2.2.2.2.2.2.2
    (by simp [ROUNDING_MODE_FLOOR]) (by simp [ROUNDING_MODE_CEILING])
    (by simp [ROUNDING_MODE_STANDARD])

/-- Counterexample to claim C8 as stated: a duration of 1800 seconds is 0.5
unit hours; with step 1 and standard mode the code rounds the midpoint with
`Decimal`'s default half-even rule and returns 0, while the claimed
conventional round-half-away rounding of the spec yields 1. -/
theorem claim_C8_counterexample :
    duration_to_rounded_unit_hours (some 1800) (some 2) (some 1) (some ROUNDING_MODE_STANDARD)
      = .ok 0
    ∧ specStandardRounding (duration_to_unit_hours (some 1800) (some 2)) 1 = 1
    ∧ (0 : ℚ) ≠ 1 := by
  refine ⟨?_, ?_, by norm_num⟩
  · simp only [duration_to_rounded_unit_hours, duration_to_unit_hours, roundToPlaces,
      roundHalfEven, ROUNDING_MODE_FLOOR, ROUNDING_MODE_CEILING, ROUNDING_MODE_STANDARD,
      String.reduceEq, if_false]
    norm_num
  · simp only [specStandardRounding, duration_to_unit_hours, roundToPlaces,
      roundHalfEven, roundHalfAway]
    norm_num

lemma merge_of_overlaps {c next : TimeSlice} (h : c.overlaps next) :
    c.merge next = .ok ⟨min c.start next.start, max c.«end» next.«end»⟩ := by
  rw [TimeSlice.merge, if_pos h]

lemma merge_of_not_overlaps {c next : TimeSlice} (h : ¬ c.overlaps next) :
    c.merge next = .error "Cannot merge; Time slices do not overlap" := by
  rw [TimeSlice.merge, if_neg h]

lemma mergeLoop_nil (c : TimeSlice) : mergeLoop c [] = [c] := rfl

lemma mergeLoop_cons (c next : TimeSlice) (rest : List TimeSlice) :
    mergeLoop c (next :: rest) =
      match c.merge next with
      | .ok merged => mergeLoop merged rest
      | .error _ => c :: mergeLoop next rest := by
  conv_lhs => rw [mergeLoop.eq_def]

lemma mergeLoop_cons_ok {c next : TimeSlice} (rest : List TimeSlice) (h : c.overlaps next) :
    mergeLoop c (next :: rest) =
      mergeLoop ⟨min c.start next.start, max c.«end» next.«end»⟩ rest := by
  rw [mergeLoop_cons, merge_of_overlaps h]

lemma mergeLoop_cons_err {c next : TimeSlice} (rest : List TimeSlice) (h : ¬ c.overlaps next) :
    mergeLoop c (next :: rest) = c :: mergeLoop next rest := by
  rw [mergeLoop_cons, merge_of_not_overlaps h]

/-- Invariant of the merge-overlap loop: starting from a valid accumulator
whose start bounds every start of the (start-sorted, valid) remaining
slices, every emitted slice is valid and starts no earlier than the
accumulator, and consecutive emitted slices are separated by a strict gap
(the later one starts after the earlier one ends). -/
lemma mergeLoop_spec :
    ∀ (l : List TimeSlice) (c : TimeSlice), c.valid → (∀ x ∈ l, x.valid) →
      (∀ x ∈ l, c.start ≤ x.start) → l.Pairwise (fun a b => a.start ≤ b.start) →
      (∀ y ∈ mergeLoop c l, c.start ≤ y.start ∧ y.valid)
      ∧ (mergeLoop c l).Pairwise (fun a b => a.«end» < b.start) := by
  intro l
  induction l with
  | nil =>
      intro c hc _ _ _
      rw [mergeLoop_nil]
      exact ⟨fun y hy => by rw [List.mem_singleton] at hy; subst hy; exact ⟨le_refl _, hc⟩,
        List.pairwise_singleton _ _⟩
  | cons next rest ih =>
      intro c hc hval hstart hpw
      rw [List.pairwise_cons] at hpw
      have hcs : c.start ≤ next.start := hstart next (List.mem_cons_self _ _)
      have hnv : next.valid := hval next (List.mem_cons_self _ _)
      have hrestv : ∀ x ∈ rest, x.valid := fun x hx => hval x (List.mem_cons_of_mem _ hx)
      by_cases hov : c.overlaps next
      · rw [mergeLoop_cons_ok rest hov]
        have hmval : TimeSlice.valid ⟨min c.start next.start, max c.«end» next.«end»⟩ := by
          unfold TimeSlice.valid at hc hnv ⊢
          dsimp only
          omega
        have hmstart : (TimeSlice.mk (min c.start next.start) (max c.«end» next.«end»)).start
            = c.start := by
          dsimp only
          omega
        have h2 : ∀ x ∈ rest,
            (TimeSlice.mk (min c.start next.start) (max c.«end» next.«end»)).start ≤ x.start := by
          intro x hx
          rw [hmstart]
          exact hcs.trans (hpw.1 x hx)
        obtain ⟨ihm, ihp⟩ := ih _ hmval hrestv h2 hpw.2
        refine ⟨fun y hy => ?_, ihp⟩
        obtain ⟨h3, h4⟩ := ihm y hy
        rw [hmstart] at h3
        exact ⟨h3, h4⟩
      · rw [mergeLoop_cons_err rest hov]
        have hgap : c.«end» < next.start := by
          unfold TimeSlice.overlaps at hov
          unfold TimeSlice.valid at hc hnv
          omega
        obtain ⟨ihm, ihp⟩ := ih next hnv hrestv hpw.1 hpw.2
        constructor
        · intro y hy
          rcases List.mem_cons.mp hy with rfl | hy'
          · exact ⟨le_refl _, hc⟩
          · obtain ⟨h3, h4⟩ := ihm y hy'
            exact ⟨hcs.trans h3, h4⟩
        · rw [List.pairwise_cons]
          refine ⟨fun y hy => ?_, ihp⟩
          obtain ⟨h3, h4⟩ := ihm y hy
          omega

/-- On an already canonical (gap-separated, valid) list the merge-overlap
loop changes nothing. -/
lemma mergeLoop_id :
    ∀ (l : List TimeSlice) (c : TimeSlice), c.valid → (∀ x ∈ l, x.valid) →
      (c :: l).Pairwise (fun a b => a.«end» < b.start) → mergeLoop c l = c :: l := by
  intro l
  induction l with
  | nil => intro c _ _ _; rfl
  | cons next rest ih =>
      intro c hc hval hpw
      rw [List.pairwise_cons] at hpw
      have hnv : next.valid := hval next (List.mem_cons_self _ _)
      have hgap : c.«end» < next.start := hpw.1 next (List.mem_cons_self _ _)
      have hnov : ¬ c.overlaps next := by
        unfold TimeSlice.overlaps
        unfold TimeSlice.valid at hc hnv
        omega
      rw [mergeLoop_cons_err rest hnov]
      exact congrArg (List.cons c)
        (ih next hnv (fun x hx => hval x (List.mem_cons_of_mem _ hx)) hpw.2)

lemma sortList_perm (r : Bool) (l : List TimeSlice) : (sortList r l).Perm l := by
  cases r <;> simp only [sortList, Bool.false_eq_true, Bool.true_eq_false, if_true, if_false,
    ite_true, ite_false] <;> exact List.perm_insertionSort _ _

lemma sortList_false_sorted (l : List TimeSlice) : (sortList false l).Pairwise rangeLe := by
  simp only [sortList, Bool.false_eq_true, if_false, ite_false]
  exact List.sorted_insertionSort rangeLe l

lemma sortList_true_sorted (l : List TimeSlice) :
    (sortList true l).Pairwise (fun a b => rangeLe b a) := by
  simp only [sortList, if_true, ite_true]
  exact List.sorted_insertionSort (fun a b => rangeLe b a) l

lemma sortList_false_of_sorted {l : List TimeSlice} (h : l.Pairwise rangeLe) :
    sortList false l = l := by
  simp only [sortList, Bool.false_eq_true, if_false, ite_false]
  exact List.Sorted.insertionSort_eq h

lemma sortList_false_sortList (r : Bool) (l : List TimeSlice) :
    sortList false (sortList r l) = sortList false l :=
  List.eq_of_perm_of_sorted
    ((sortList_perm false _).trans ((sortList_perm r l).trans (sortList_perm false l).symm))
    (sortList_false_sorted _) (sortList_false_sorted _)

lemma merge_overlap_eq_nil {tl : TimeLine} (h : sortList false tl.time_slices = []) :
    tl.merge_overlap = tl := by
  unfold TimeLine.merge_overlap
  rw [h]

lemma merge_overlap_eq_cons {tl : TimeLine} {c : TimeSlice} {rest : List TimeSlice}
    (h : sortList false tl.time_slices = c :: rest) :
    tl.merge_overlap = ⟨sortList tl.reverse (mergeLoop c rest), tl.reverse⟩ := by
  unfold TimeLine.merge_overlap
  rw [h]

/-- `flatten` is `sort` followed by `merge_overlap`, and `merge_overlap`
itself starts from an ascending sort, so the initial sort is immaterial:
`flatten` and `merge_overlap` agree on every timeline. -/
lemma flatten_eq_merge_overlap (tl : TimeLine) : tl.flatten = tl.merge_overlap := by
  cases hsl : sortList false tl.time_slices with
  | nil =>
      have hnil : tl.time_slices = [] := by
        have hp := sortList_perm false tl.time_slices
        rw [hsl] at hp
        exact hp.symm.eq_nil
      have hsn : sortList tl.reverse tl.time_slices = [] := by
        rw [hnil]
        cases tl.reverse <;> rfl
      have h1 : tl.flatten = tl.sort none := by
        rw [TimeLine.flatten]
        refine merge_overlap_eq_nil ?_
        show sortList false (tl.sort none).time_slices = []
        rw [show (tl.sort none).time_slices = sortList tl.reverse tl.time_slices from rfl, hsn]
        rfl
      rw [h1, merge_overlap_eq_nil hsl]
      show (⟨sortList tl.reverse tl.time_slices, tl.reverse⟩ : TimeLine) = tl
      rw [hsn, ← hnil]
  | cons c rest =>
      have hsl2 : sortList false (tl.sort none).time_slices = c :: rest := by
        rw [show (tl.sort none).time_slices = sortList tl.reverse tl.time_slices from rfl,
          sortList_false_sortList, hsl]
      rw [TimeLine.flatten, merge_overlap_eq_cons hsl2, merge_overlap_eq_cons hsl]
      rfl

/-- Claim C2: after `merge_overlap` (and hence after `flatten`) a timeline
of valid slices is canonical: no two stored slices overlap or touch
(touching counts as overlap, so it is merged away), the slices are sorted
by the `(start, end)` tuple in the timeline's configured direction, and
`flatten` is idempotent; the timeline of the touching slices `[9:00,10:00]`
and `[10:00,11:00]` flattens to the single slice `[9:00,11:00]`. -/
theorem claim_C2_merge_overlap_canonical (tl : TimeLine)
    (hv : ∀ s ∈ tl.time_slices, s.valid) :
    (tl.merge_overlap).time_slices.Pairwise (fun a b => ¬ a.overlaps b)
    ∧ (tl.merge_overlap).time_slices.Pairwise (dirRel tl.reverse)
    ∧ tl.flatten.flatten = tl.flatten
    ∧ TimeLine.flatten
        (TimeLine.init [⟨32400000000, 36000000000⟩, ⟨36000000000, 39600000000⟩] false)
        = ⟨[⟨32400000000, 39600000000⟩], false⟩ := by
  rw [flatten_eq_merge_overlap tl, flatten_eq_merge_overlap tl.merge_overlap]
  cases hsl : sortList false tl.time_slices with
  | nil =>
      have hmo : tl.merge_overlap = tl := merge_overlap_eq_nil hsl
      have hnil : tl.time_slices = [] := by
        have hp := sortList_perm false tl.time_slices
        rw [hsl] at hp
        exact hp.symm.eq_nil
      refine ⟨?_, ?_, ?_, by decide⟩
      · rw [hmo, hnil]
        exact List.Pairwise.nil
      · rw [hmo, hnil]
        exact List.Pairwise.nil
      · rw [hmo, hmo]
  | cons c rest =>
      have hperm : (c :: rest).Perm tl.time_slices := by
        have hp := sortList_perm false tl.time_slices
        rw [hsl] at hp
        exact hp
      have hvall : ∀ x ∈ c :: rest, x.valid := fun x hx => hv x (hperm.mem_iff.mp hx)
      have hsorted : (c :: rest).Pairwise rangeLe := by
        have hps := sortList_false_sorted tl.time_slices
        rw [hsl] at hps
        exact hps
      rw [List.pairwise_cons] at hsorted
      have hcv : c.valid := hvall c (List.mem_cons_self _ _)
      have hrv : ∀ x ∈ rest, x.valid := fun x hx => hvall x (List.mem_cons_of_mem _ hx)
      have hstart : ∀ x ∈ rest, c.start ≤ x.start := by
        intro x hx
        have hcx := hsorted.1 x hx
        unfold rangeLe at hcx
        omega
      have hpwstart : rest.Pairwise (fun a b => a.start ≤ b.start) := by
        refine hsorted.2.imp ?_
        intro a b hab
        unfold rangeLe at hab
        omega
      obtain ⟨hmem, hgap⟩ := mergeLoop_spec rest c hcv hrv hstart hpwstart
      have hMval : ∀ x ∈ mergeLoop c rest, x.valid := fun x hx => (hmem x hx).2
      have hMle : (mergeLoop c rest).Pairwise rangeLe := by
        refine List.Pairwise.imp_of_mem ?_ hgap
        intro a b ha hb hab
        have hva := hMval a ha
        unfold TimeSlice.valid at hva
        unfold rangeLe
        omega
      have hMno : (mergeLoop c rest).Pairwise (fun a b => ¬ a.overlaps b) := by
        refine List.Pairwise.imp_of_mem ?_ hgap
        intro a b ha hb hab
        have hva := hMval a ha
        have hvb := hMval b hb
        unfold TimeSlice.valid at hva hvb
        unfold TimeSlice.overlaps
        omega
      have hmo : tl.merge_overlap = ⟨sortList tl.reverse (mergeLoop c rest), tl.reverse⟩ :=
        merge_overlap_eq_cons hsl
      have hsymm : ∀ {x y : TimeSlice}, ¬ x.overlaps y → ¬ y.overlaps x := by
        intro x y hxy
        unfold TimeSlice.overlaps at hxy ⊢
        omega
      refine ⟨?_, ?_, ?_, by decide⟩
      · rw [hmo]
        exact (List.Perm.pairwise_iff hsymm (sortList_perm tl.reverse (mergeLoop c rest))).mpr hMno
      · rw [hmo]
        show (sortList tl.reverse (mergeLoop c rest)).Pairwise (dirRel tl.reverse)
        cases htl : tl.reverse with
        | false =>
            refine (sortList_false_sorted (mergeLoop c rest)).imp ?_
            intro a b hab
            simpa [dirRel] using hab
        | true =>
            refine (sortList_true_sorted (mergeLoop c rest)).imp ?_
            intro a b hab
            simpa [dirRel] using hab
      · have hMfix : sortList false (tl.merge_overlap).time_slices = mergeLoop c rest := by
          rw [hmo]
          show sortList false (sortList tl.reverse (mergeLoop c rest)) = _
          rw [sortList_false_sortList, sortList_false_of_sorted hMle]
        cases hM : mergeLoop c rest with
        | nil =>
            have h0 : sortList false (tl.merge_overlap).time_slices = [] := by rw [hMfix, hM]
            rw [merge_overlap_eq_nil h0]
        | cons c' rest' =>
            have h2 : sortList false (tl.merge_overlap).time_slices = c' :: rest' := by
              rw [hMfix, hM]
            rw [merge_overlap_eq_cons h2]
            have hc'v : c'.valid := hMval c' (by rw [hM]; exact List.mem_cons_self _ _)
            have hrest'v : ∀ x ∈ rest', x.valid := by
              intro x hx
              refine hMval x ?_
              rw [hM]
              exact List.mem_cons_of_mem _ hx
            have hgap' : (c' :: rest').Pairwise (fun a b => a.«end» < b.start) := by
              rw [← hM]
              exact hgap
            have hid : mergeLoop c' rest' = c' :: rest' := mergeLoop_id rest' c' hc'v hrest'v hgap'
            have hrev : (tl.merge_overlap).reverse = tl.reverse := by rw [hmo]
            rw [hid, ← hM, hrev]
            exact hmo.symm

/-- Witness for claim C2 at the spec's touching-slices timeline. -/
theorem claim_C2_merge_overlap_canonical_witness :
    ((TimeLine.init [⟨32400000000, 36000000000⟩, ⟨36000000000, 39600000000⟩]
        false).merge_overlap).time_slices.Pairwise (fun a b => ¬ a.overlaps b)
    ∧ (TimeLine.init [⟨32400000000, 36000000000⟩, ⟨36000000000, 39600000000⟩]
        false).flatten.flatten
      = (TimeLine.init [⟨32400000000, 36000000000⟩, ⟨36000000000, 39600000000⟩] false).flatten :=
  ⟨(claim_C2_merge_overlap_canonical
      (TimeLine.init [⟨32400000000, 36000000000⟩, ⟨36000000000, 39600000000⟩] false)
      (by decide)).1,
   (claim_C2_merge_overlap_canonical
      (TimeLine.init [⟨32400000000, 36000000000⟩, ⟨36000000000, 39600000000⟩] false)
      (by decide)).2.2.1⟩

end TomatoSlicer
